import Mathlib

/-!
Shallow embedding of the `tfon` bitmap-font library (src/tfon/src/) and
verification of its specification claims.

Rust `&str` values are modelled as `List Char`; machine integers (`u8`,
`u16`, `usize`) are modelled as `Nat`, with the places where the source
performs a range check (`u8::try_from(..)`, `u8::from_str`, ...) carrying
the explicit bound.
-/

namespace Tfon

/-- A Rust string slice, modelled as a list of characters. -/
abbrev Str := List Char

/-! ## common.rs : Error, Bitmap, Prop -/

/-- `common.rs` `Error` (the `Io` variant wraps a transport error and is not
reachable for the in-memory sinks modelled here, so it is omitted). -/
inductive Error' where
  | Expected (s : String)
  | UnknownFormat
deriving DecidableEq

/-- `common.rs` `Bitmap`: packed 1-bit-per-pixel grid.  `bmap` holds the
packed bytes (each a `Nat` standing for a `u8` value). -/
structure Bitmap where
  height : Nat
  width : Nat
  bmap : List Nat
deriving DecidableEq

/-- `common.rs` `Prop`: one unit of font metadata or one glyph bitmap.
(Named `Prop'` because `Prop` is a Lean sort.) -/
inductive Prop' where
  | Unknown (s : Str)
  | FontName (s : Str)
  | FontNumber (n : Nat)
  | FontHeight (n : Nat)
  | FontWidth (n : Nat)
  | CharSpacing (n : Nat)
  | LineSpacing (n : Nat)
  | Baseline (n : Nat)
  | MaxCharNumber (n : Nat)
  | CodePoint (n : Nat)
  | Bitmap (b : Tfon.Bitmap)
deriving DecidableEq

/-- `Bitmap::new`: empty bitmap of a fixed width. -/
def Bitmap.new (width : Nat) : Bitmap :=
  { height := 0, width := width, bmap := [] }

/-- `Bitmap::from_bits`. -/
def Bitmap.from_bits (height width : Nat) (bmap : List Nat) : Option Bitmap :=
  let len := height * width
  if bmap.length = (len + 7) / 8 then
    some { height := height, width := width, bmap := bmap }
  else
    none

/-- `Bitmap::into_bits`. -/
def Bitmap.into_bits (b : Bitmap) : List Nat := b.bmap

/-- `PixIter::next`, bit `pos` of the packed buffer:
`(bmap[pos >> 3] >> (7 - (pos & 7))) & 1 != 0`. -/
def bitAt (buf : List Nat) (pos : Nat) : Bool :=
  Nat.testBit (buf.getD (pos / 8) 0) (7 - pos % 8)

/-- `Bitmap::pixels`: all `height * width` pixels in row-major order
(`PixIter` run to completion). -/
def Bitmap.pixels (b : Bitmap) : List Bool :=
  (List.range (b.height * b.width)).map (bitAt b.bmap)

/-- `self.bmap[off] |= 1 << bit` with `off = pos >> 3`, `bit = 7 - (pos & 7)`. -/
def setBit (buf : List Nat) (pos : Nat) : List Nat :=
  buf.set (pos / 8) (buf.getD (pos / 8) 0 ||| (1 <<< (7 - pos % 8)))

/-- One iteration of the `Bitmap::push_row` loop body at bit position `pos`:
push a fresh zero byte on a byte boundary, then set the bit if the pixel
is on. -/
def pushPix (buf : List Nat) (pos : Nat) (pix : Bool) : List Nat :=
  let buf := if pos % 8 = 0 then buf ++ [0] else buf
  if pix then setBit buf pos else buf

/-- The `Bitmap::push_row` loop over the (already padded/truncated) pixels. -/
def pushRowAux (buf : List Nat) (pos : Nat) : List Bool → List Nat
  | [] => buf
  | p :: ps => pushRowAux (pushPix buf pos p) (pos + 1) ps

/-- `row.chain(repeat(false)).take(width)`: the row truncated or
right-padded with `false` to exactly `width` pixels. -/
def padRow (row : List Bool) (width : Nat) : List Bool :=
  (row ++ List.replicate width false).take width

/-- `Bitmap::push_row`.  The buffer is extended starting at bit position
`height * width` (computed from the old height, in `usize`).  The height
field is a `u8`, so `self.height += 1` is u8 arithmetic: at height 255 the
increment wraps to 0 (release builds; debug builds abort instead of
producing a bitmap) — modelled as addition modulo 2^8. -/
def Bitmap.push_row (b : Bitmap) (row : List Bool) : Bitmap :=
  { height := (b.height + 1) % 256
    width := b.width
    bmap := pushRowAux b.bmap (b.height * b.width) (padRow row b.width) }

/-! Accessors from `impl Prop` in common.rs. -/

/-- `Prop::font_name`. -/
def Prop'.font_name : Prop' → Option Str
  | .FontName nm => some nm
  | _ => none

/-- `Prop::font_number`. -/
def Prop'.font_number : Prop' → Option Nat
  | .FontNumber n => some n
  | _ => none

/-- `Prop::char_spacing`. -/
def Prop'.char_spacing : Prop' → Option Nat
  | .CharSpacing cs => some cs
  | _ => none

/-- `Prop::line_spacing`. -/
def Prop'.line_spacing : Prop' → Option Nat
  | .LineSpacing ls => some ls
  | _ => none

/-- `Prop::font_height` (note: a `Bitmap` also provides a height). -/
def Prop'.font_height : Prop' → Option Nat
  | .FontHeight fh => some fh
  | .Bitmap bmap => some bmap.height
  | _ => none

/-- `Prop::code_point`. -/
def Prop'.code_point : Prop' → Option Nat
  | .CodePoint cp => some cp
  | _ => none

/-! ## Line cursor shared by all four parsers

Each parser struct holds `lines: Lines<'p>` (the remaining lines of the
input) and `line: Option<&'p str>` (the one-slot pushback buffer). -/

/-- The state of a parser: remaining lines plus the pushback slot. -/
structure ParserState where
  lines : List Str
  line : Option Str
deriving DecidableEq

/-- `Parser::next_line` (identical in all four parsers): take the pushed-back
line if present, otherwise the next non-empty line.  Returns the line and
the successor state; `none` means the input is exhausted. -/
def next_line (s : ParserState) : Option (Str × ParserState) :=
  match s.line with
  | some l => some (l, ⟨s.lines, none⟩)
  | none =>
    match s.lines.dropWhile List.isEmpty with
    | [] => none
    | l :: rest => some (l, ⟨rest, none⟩)

/-- `Parser::push_line`. -/
def push_line (s : ParserState) (l : Str) : ParserState :=
  ⟨s.lines, some l⟩

/-! ## Rust string primitives -/

/-- Rust `str::split_once(sep)`: split at the first occurrence of `sep`. -/
def splitOnce (sep : Str) : Str → Option (Str × Str)
  | [] => none
  | c :: cs =>
    if sep.isPrefixOf (c :: cs) then some ([], (c :: cs).drop sep.length)
    else
      match splitOnce sep cs with
      | some (pre, post) => some (c :: pre, post)
      | none => none

/-- Rust `u8`/`u16`::`from_str` digit accumulator (ASCII digits only). -/
def parseDigitsAux (acc : Nat) : Str → Option Nat
  | [] => some acc
  | c :: cs =>
    if '0' ≤ c ∧ c ≤ '9' then
      parseDigitsAux (acc * 10 + (c.toNat - '0'.toNat)) cs
    else
      none

/-- Rust `uN::from_str` for an unsigned type with `lim = 2^N` values: an
optional leading `+`, then at least one ASCII digit, value below `lim`
(a larger value overflows and `from_str` fails). -/
def from_str (lim : Nat) (l : Str) : Option Nat :=
  let ds := match l with
    | '+' :: rest => rest
    | _ => l
  match ds with
  | [] => none
  | _ =>
    match parseDigitsAux 0 ds with
    | some n => if n < lim then some n else none
    | none => none

/-- First token of `line.split(' ')` (always present). -/
def firstTok (l : Str) : Str := l.takeWhile (fun c => c ≠ ' ')

/-- Second token of `line.split(' ')`: present exactly when the line has at
least one space; the text between the first space and the next one. -/
def secondTok (l : Str) : Option Str :=
  match l.dropWhile (fun c => c ≠ ' ') with
  | [] => none
  | _ :: rest => some (rest.takeWhile (fun c => c ≠ ' '))

/-! ## bdf.rs : parser -/

/-- bdf `is_pixel_row`: every character a hexadecimal digit. -/
def bdf_is_pixel_row (line : Str) : Bool :=
  line.all (fun c => ("1234567890ABCDEF").toList.contains c)

/-- bdf `hex_nybble`: value of a hexadecimal digit byte (0 otherwise). -/
def hex_nybble (v : Nat) : Nat :=
  if 48 ≤ v ∧ v ≤ 57 then v - 48
  else if 65 ≤ v ∧ v ≤ 70 then v + 10 - 65
  else 0

/-- bdf `HexBitIter` run to completion: each character expands to its four
bits, most significant first. -/
def hex_bits (line : Str) : List Bool :=
  (line.map (fun c =>
    let n := hex_nybble c.toNat
    [n.testBit 3, n.testBit 2, n.testBit 1, n.testBit 0])).flatten

/-- The `while let` loop of bdf `Parser::character`.  At every entry to the
loop the pushback slot is empty (`next_line` always clears it), so the loop
is a function of the remaining line list; the `isEmpty` skip is the
blank-line filter inside `next_line`. -/
def bdf_char_loop : Bitmap → List Str → Option Prop' × ParserState
  | bitmap, [] => (some (.Bitmap bitmap), ⟨[], none⟩)
  | bitmap, l :: rest =>
    if l.isEmpty then bdf_char_loop bitmap rest
    else if l = ("ENDCHAR").toList then (some (.Bitmap bitmap), ⟨rest, none⟩)
    else if bdf_is_pixel_row l then
      bdf_char_loop (bitmap.push_row (hex_bits l)) rest
    else (none, ⟨rest, none⟩)

/-- bdf `Parser::character`. -/
def bdf_character (width : Nat) (s : ParserState) :
    Option Prop' × ParserState :=
  if width = 0 then (none, s)
  else
    match next_line s with
    | none => (none, s)
    | some (line, s1) =>
      if ¬ ("BBX").toList.isPrefixOf line then (none, s1)
      else
        match next_line s1 with
        | none => (none, s1)
        | some (line2, s2) =>
          if line2 ≠ ("BITMAP").toList then (none, s2)
          else bdf_char_loop (Bitmap.new width) s2.lines

/-- bdf `Parser::prop`. -/
def bdf_prop (s : ParserState) : Option Prop' × ParserState :=
  match next_line s with
  | none => (none, s)
  | some (line0, s1) =>
    if firstTok line0 = ("ENDFONT").toList then (none, s1)
    else
      match (if firstTok line0 = ("ENDPROPERTIES").toList then next_line s1
             else some (line0, s1)) with
      | none => (none, s1)
      | some (line, s2) =>
        let k := firstTok line
        if k = ("FONT").toList then
          ((secondTok line).map .FontName, s2)
        else if k = ("SIZE").toList then
          (((secondTok line).bind (from_str (2 ^ 8))).map .FontHeight, s2)
        else if k = ("FONT_ASCENT").toList then
          (((secondTok line).bind (from_str (2 ^ 8))).map .Baseline, s2)
        else if k = ("ENCODING").toList then
          (((secondTok line).bind (from_str (2 ^ 16))).map .CodePoint, s2)
        else if k = ("DWIDTH").toList then
          match (secondTok line).bind (from_str (2 ^ 8)) with
          | some width => bdf_character width s2
          | none => (none, s2)
        else (some (.Unknown line), s2)

/-! ## ifnt.rs : parser -/

/-- ifnt `pixel_filter_map`: `.` is off, `X` is on, anything else is
filtered out by `filter_map`. -/
def pixel_filter_map (c : Char) : Option Bool :=
  if c = '.' then some false
  else if c = 'X' then some true
  else none

/-- ifnt `parse_row`: a `row...=<value>` line gives
`value.chars().filter_map(pixel_filter_map)`; any other line gives no
pixels. -/
def parse_row (line : Str) : List Bool :=
  if ("row").toList.isPrefixOf line then
    match splitOnce ("=").toList line with
    | some (_, val) => val.filterMap pixel_filter_map
    | none => []
  else []

/-- The `while let` loop of ifnt `Parser::character` (pushback slot empty
at every entry, as in `bdf_char_loop`). -/
def ifnt_char_loop (width : Nat) : Bitmap → List Str → Option Prop' × ParserState
  | bitmap, [] => (some (.Bitmap bitmap), ⟨[], none⟩)
  | bitmap, l :: rest =>
    if l.isEmpty then ifnt_char_loop width bitmap rest
    else if (parse_row l).length = width then
      ifnt_char_loop width (bitmap.push_row (parse_row l)) rest
    else (some (.Bitmap bitmap), ⟨rest, some l⟩)

/-- ifnt `Parser::character` (`u8::try_from(pix.len()).unwrap_or(0)` makes
any row of more than 255 pixels behave as width 0). -/
def ifnt_character (s : ParserState) : Option Prop' × ParserState :=
  match next_line s with
  | none => (none, s)
  | some (line, s1) =>
    let width := if (parse_row line).length ≤ 255 then (parse_row line).length
                 else 0
    if width = 0 then (none, s1)
    else ifnt_char_loop width ((Bitmap.new width).push_row (parse_row line))
      s1.lines

/-- ifnt `Parser::prop`. -/
def ifnt_prop (s : ParserState) : Option Prop' × ParserState :=
  match next_line s with
  | none => (none, s)
  | some (line, s1) =>
    if ("[Char_").toList.isPrefixOf line ∧
        ("]").toList.isSuffixOf (line.drop 6) then
      ((from_str (2 ^ 16) ((line.drop 6).dropLast)).map .CodePoint, s1)
    else
      match splitOnce ("=").toList line with
      | some (key, val) =>
        if key = ("FontName").toList then (some (.FontName val), s1)
        else if key = ("FontHeight").toList then
          ((from_str (2 ^ 8) val).map .FontHeight, s1)
        else if key = ("CharSpacing").toList then
          ((from_str (2 ^ 8) val).map .CharSpacing, s1)
        else if key = ("LineSpacing").toList then
          ((from_str (2 ^ 8) val).map .LineSpacing, s1)
        else if key = ("MaxCharNumber").toList then
          ((from_str (2 ^ 16) val).map .MaxCharNumber, s1)
        else if key = ("Character").toList then ifnt_character s1
        else (some (.Unknown key), s1)
      | none => (some (.Unknown line), s1)

/-! ## ifntx.rs : parser -/

/-- ifntx `is_pixel_row`: only `.` and `X`. -/
def ifntx_is_pixel_row (line : Str) : Bool :=
  line.all (fun c => c == '.' || c == 'X')

/-- ifntx `row_pixels`. -/
def ifntx_row_pixels (line : Str) : List Bool :=
  line.map (fun c => c == 'X')

/-- The `while let` loop of ifntx `Parser::character` (pushback slot empty
at every entry, as in `bdf_char_loop`). -/
def ifntx_char_loop (width : Nat) : Bitmap → List Str → Option Prop' × ParserState
  | bitmap, [] => (some (.Bitmap bitmap), ⟨[], none⟩)
  | bitmap, l :: rest =>
    if l.isEmpty then ifntx_char_loop width bitmap rest
    else if ifntx_is_pixel_row l ∧ l.length = width then
      ifntx_char_loop width (bitmap.push_row (ifntx_row_pixels l)) rest
    else (some (.Bitmap bitmap), ⟨rest, some l⟩)

/-- ifntx `Parser::character`. -/
def ifntx_character (line : Str) (s : ParserState) :
    Option Prop' × ParserState :=
  let width := if line.length ≤ 255 then line.length else 0
  if width = 0 ∨ ¬ ifntx_is_pixel_row line then (none, s)
  else ifntx_char_loop width
    ((Bitmap.new width).push_row (ifntx_row_pixels line)) s.lines

/-- Rust `char::is_ascii_whitespace`. -/
def isAsciiWhitespace (c : Char) : Bool :=
  c == ' ' || c == '\t' || c == '\n' || c == Char.ofNat 12 || c == '\r'

/-- `val.split_ascii_whitespace().next().unwrap_or(val)`: the first
whitespace-delimited token, or the whole value when there is none. -/
def ifntx_cp_token (val : Str) : Str :=
  match val.dropWhile isAsciiWhitespace with
  | [] => val
  | c :: rest => (c :: rest).takeWhile (fun c => !(isAsciiWhitespace c))

/-- ifntx `Parser::prop`. -/
def ifntx_prop (s : ParserState) : Option Prop' × ParserState :=
  match next_line s with
  | none => (none, s)
  | some (line, s1) =>
    match splitOnce (": ").toList line with
    | some (key, val) =>
      if key = ("name").toList then (some (.FontName val), s1)
      else if key = ("font_number").toList then
        ((from_str (2 ^ 8) val).map .FontNumber, s1)
      else if key = ("height").toList then
        ((from_str (2 ^ 8) val).map .FontHeight, s1)
      else if key = ("width").toList then
        ((from_str (2 ^ 8) val).map .FontWidth, s1)
      else if key = ("char_spacing").toList then
        ((from_str (2 ^ 8) val).map .CharSpacing, s1)
      else if key = ("line_spacing").toList then
        ((from_str (2 ^ 8) val).map .LineSpacing, s1)
      else if key = ("codepoint").toList then
        ((from_str (2 ^ 16) (ifntx_cp_token val)).map .CodePoint, s1)
      else (some (.Unknown key), s1)
    | none => ifntx_character line s1

/-! ## tfon.rs : parser -/

/-- The fixed 256-entry ASCII + Latin-1 symbol table `SYMBOL`. -/
def SYMBOL : List Str :=
  (["NUL", "SOH", "STX", "ETX", "EOT", "ENQ", "ACK", "BEL", "BS", "HT", "LF",
    "VT", "FF", "CR", "SO", "SI", "DLE", "DC1", "DC2", "DC3", "DC4", "NAK",
    "SYN", "ETB", "CAN", "EM", "SUB", "ESC", "FS", "GS", "RS", "US", "SP",
    "!", "\"", "#", "$", "%", "&", String.mk [Char.ofNat 39], "(", ")", "*",
    "+", ",", "-", ".", "/", "0",
    "1", "2", "3", "4", "5", "6", "7", "8", "9", ":", ";", "<", "=", ">",
    "?",
    "@", "A", "B", "C", "D", "E", "F", "G", "H", "I", "J", "K", "L", "M",
    "N",
    "O", "P", "Q", "R", "S", "T", "U", "V", "W", "X", "Y", "Z", "[", "\\",
    "]",
    "^", "_", "`", "a", "b", "c", "d", "e", "f", "g", "h", "i", "j", "k",
    "l",
    "m", "n", "o", "p", "q", "r", "s", "t", "u", "v", "w", "x", "y", "z",
    "\x7b",
    "|", "\x7d", "~", "DEL", "PAD", "HOP", "BPH", "NBH", "IND", "NEL", "SSA",
    "ESA", "HTS", "HTJ", "LTS", "PLD", "PLU", "RI", "SS2", "SS3", "DCS",
    "PU1",
    "PU2", "STS", "CCH", "MW", "SPA", "EPA", "SOS", "SGCI", "SCI", "CSI",
    "ST",
    "OSC", "PM", "APC", "NBSP", "¡", "¢", "£", "¤", "¥", "¦", "§", "¨", "©",
    "ª", "«", "¬", "SHY", "®", "¯", "°", "±", "²", "³", "´", "µ", "¶", "·",
    "¸", "¹", "º", "»", "¼", "½", "¾", "¿", "À", "Á", "Â", "Ã", "Ä", "Å",
    "Æ",
    "Ç", "È", "É", "Ê", "Ë", "Ì", "Í", "Î", "Ï", "Ð", "Ñ", "Ò", "Ó", "Ô",
    "Õ",
    "Ö", "×", "Ø", "Ù", "Ú", "Û", "Ü", "Ý", "Þ", "ß", "à", "á", "â", "ã",
    "ä",
    "å", "æ", "ç", "è", "é", "ê", "ë", "ì", "í", "î", "ï", "ð", "ñ", "ò",
    "ó",
    "ô", "õ", "ö", "÷", "ø", "ù", "ú", "û", "ü", "ý", "þ", "ÿ"]).map
    String.toList

/-- tfon `is_pixel_row`: only `.` and `@`. -/
def tfon_is_pixel_row (line : Str) : Bool :=
  line.all (fun c => c == '.' || c == '@')

/-- tfon `row_pixels`. -/
def tfon_row_pixels (line : Str) : List Bool :=
  line.map (fun c => c == '@')

/-- The `while let` loop of tfon `Parser::character` (pushback slot empty
at every entry, as in `bdf_char_loop`). -/
def tfon_char_loop (width : Nat) : Bitmap → List Str → Option Prop' × ParserState
  | bitmap, [] => (some (.Bitmap bitmap), ⟨[], none⟩)
  | bitmap, l :: rest =>
    if l.isEmpty then tfon_char_loop width bitmap rest
    else if tfon_is_pixel_row l ∧ l.length = width then
      tfon_char_loop width (bitmap.push_row (tfon_row_pixels l)) rest
    else (some (.Bitmap bitmap), ⟨rest, some l⟩)

/-- tfon `Parser::character`. -/
def tfon_character (line : Str) (s : ParserState) :
    Option Prop' × ParserState :=
  let width := if line.length ≤ 255 then line.length else 0
  if width = 0 ∨ ¬ tfon_is_pixel_row line then (none, s)
  else tfon_char_loop width
    ((Bitmap.new width).push_row (tfon_row_pixels line)) s.lines

/-- Result of a call that may abort the program: `panicked` models a Rust
panic (here: the unchecked index `SYMBOL[usize::from(cp)]`). -/
inductive Panicky (α : Type) where
  | panicked
  | returned (a : α)
deriving DecidableEq

/-- tfon `Parser::prop`.  The `ch:` arm evaluates `SYMBOL[usize::from(cp)]`
with no bounds check, so a parsed codepoint of 256 or more panics. -/
def tfon_prop (s : ParserState) : Panicky (Option Prop' × ParserState) :=
  match next_line s with
  | none => .returned (none, s)
  | some (line, s1) =>
    match splitOnce (": ").toList line with
    | some (key, val) =>
      if key = ("font_name").toList then .returned (some (.FontName val), s1)
      else if key = ("font_number").toList then
        .returned ((from_str (2 ^ 8) val).map .FontNumber, s1)
      else if key = ("char_spacing").toList then
        .returned ((from_str (2 ^ 8) val).map .CharSpacing, s1)
      else if key = ("line_spacing").toList then
        .returned ((from_str (2 ^ 8) val).map .LineSpacing, s1)
      else if key = ("ch").toList then
        match splitOnce (" ").toList val with
        | some (cps, symbol) =>
          match from_str (2 ^ 16) cps with
          | some cp =>
            match SYMBOL[cp]? with
            | some sym =>
              .returned
                ((if symbol = sym then some (.CodePoint cp) else none), s1)
            | none => .panicked
          | none => .returned (none, s1)
        | none => .returned (none, s1)
      else .returned (some (.Unknown key), s1)
    | none => .returned (tfon_character line s1)

/-! ## ifnt.rs : writer

The output sink is modelled as the string written so far; `writeln!` to an
in-memory sink cannot fail, so the `Io` error kind never arises. -/

/-- An ASCII apostrophe. -/
def apos : Char := Char.ofNat 39

/-- `{name:64}`: left-justified, space-padded to at least 64 columns. -/
def padTo64 (name : Str) : Str :=
  name ++ List.replicate (64 - name.length) ' '

/-- Decimal rendering of a number (`{n}`). -/
def natStr (n : Nat) : Str := (Nat.repr n).toList

/-- `{n:02}`: decimal, zero-padded to at least two digits. -/
def fmt02 (n : Nat) : Str :=
  List.replicate (2 - (natStr n).length) '0' ++ natStr n

/-- The lines written for one `Prop::CodePoint(cp)`: a blank line,
`[Char_<cp>]`, and the `Character=` line (`'<char>'` for printable ASCII,
`0x<hex>` otherwise). -/
def ifnt_char_header (cp : Nat) : Str :=
  ("\n[Char_").toList ++ natStr cp ++ ("]\n").toList ++
  (if 32 ≤ cp ∧ cp < 127 then
    ("Character=").toList ++ [apos, Char.ofNat cp, apos] ++ ("\n").toList
  else
    ("Character=0x").toList ++ Nat.toDigits 16 cp ++ ("\n").toList)

/-- The `for pix in bmap.pixels()` loop of the ifnt writer: `rowNN=` prefix
at the start of each row, pixels as ` .`/` X`, newline every `width`
pixels. -/
def render_ifnt_rows (width : Nat) : List Bool → Nat → Nat → Str → Str
  | [], _, _, out => out
  | pix :: rest, col, row, out =>
    let out := if col = 0 then
        out ++ ("row").toList ++ fmt02 row ++ ("=").toList
      else out
    let out := out ++ (if pix then (" X").toList else (" .").toList)
    if width ≤ col + 1 then
      render_ifnt_rows width rest 0 (row + 1) (out ++ ("\n").toList)
    else
      render_ifnt_rows width rest (col + 1) row out

/-- The `for prop in props` loop of the ifnt writer.  `ch` is true when no
codepoint is pending a bitmap (initially true; a `CodePoint` clears it, a
`Bitmap` in the cleared state sets it back). -/
def ifnt_write_loop : List Prop' → Bool → Str → Except Error' Str
  | [], _, out => .ok out
  | .CodePoint cp :: ps, _, out =>
    ifnt_write_loop ps false (out ++ ifnt_char_header cp)
  | .Bitmap bmap :: ps, ch, out =>
    if ch then .error (.Expected ("Character"))
    else ifnt_write_loop ps true (render_ifnt_rows bmap.width bmap.pixels 0 1 out)
  | _ :: ps, ch, out => ifnt_write_loop ps ch out

/-- The `[FontInfo]` header block written before the character blocks. -/
def ifnt_header (fn : Str) (fh cs ls mcn : Nat) : Str :=
  ("[FontInfo]\nFontName=").toList ++ padTo64 fn
  ++ ("\nFontHeight=").toList ++ natStr fh
  ++ ("\nCharSpacing=").toList ++ natStr cs
  ++ ("\nLineSpacing=").toList ++ natStr ls
  ++ ("\nMaxCharNumber=").toList ++ natStr mcn ++ ("\n").toList

/-- ifnt `write`: the required scalars are looked up with `find_map` (first
occurrence wins), `MaxCharNumber` is the last codepoint of the sequence,
then the property loop runs. -/
def ifnt_write (props : List Prop') : Except Error' Str :=
  match props.findSome? Prop'.font_name with
  | none => .error (.Expected ("FontName"))
  | some font_name =>
    match props.findSome? Prop'.font_height with
    | none => .error (.Expected ("FontHeight"))
    | some font_height =>
      match props.findSome? Prop'.char_spacing with
      | none => .error (.Expected ("CharSpacing"))
      | some char_spacing =>
        match props.findSome? Prop'.line_spacing with
        | none => .error (.Expected ("LineSpacing"))
        | some line_spacing =>
          match (props.filterMap Prop'.code_point).getLast? with
          | none => .error (.Expected ("MaxCharNumber"))
          | some max_char_num =>
            ifnt_write_loop props true
              (ifnt_header font_name font_height char_spacing line_spacing
                max_char_num)

/-! ## Statement-level helper definitions -/

/-- Modelled from the spec wording of claim C3 (for comparison with the
source's `parse_row`): the pixel sequence of a row value ends at the first
character that is neither `.` nor `X`. -/
def parse_row_value_spec (val : Str) : List Bool :=
  (val.takeWhile (fun c => c == '.' || c == 'X')).map (fun c => c == 'X')

/-- Statement helper: the sequence drives the ifnt writer loop (started
with flag `ch`) into the `Expected("Character")` branch — i.e. some
`Bitmap` entry has no codepoint pending when it is reached. -/
def chViolation : List Prop' → Bool → Bool
  | [], _ => false
  | .CodePoint _ :: ps, _ => chViolation ps false
  | .Bitmap _ :: ps, ch => if ch then true else chViolation ps true
  | _ :: ps, ch => chViolation ps ch

/-- Statement helper: all five header lookups of the ifnt writer succeed. -/
def ifnt_header_ok (props : List Prop') : Bool :=
  (props.findSome? Prop'.font_name).isSome &&
  (props.findSome? Prop'.font_height).isSome &&
  (props.findSome? Prop'.char_spacing).isSome &&
  (props.findSome? Prop'.line_spacing).isSome &&
  (props.filterMap Prop'.code_point).getLast?.isSome

/-- Statement helper (spec wording): a row of booleans written directly at
width `w` — its first `w` entries, right-padded with `false`. -/
def rowSpec (w : Nat) (r : List Bool) : List Bool :=
  r.take w ++ List.replicate (w - r.length) false

/-- Statement helper: the packed buffer invariant relative to an intended
bit sequence `f` — correct byte length for `n` bits, every stored bit in
MSB-first row-major position, and every not-yet-written bit zero. -/
def WFbuf (f : Nat → Bool) (n : Nat) (buf : List Nat) : Prop :=
  buf.length = (n + 7) / 8 ∧ ∀ i, bitAt buf i = (decide (i < n) && f i)

/-! ## General helper lemmas -/

theorem splitOnce_single {c : Char} (pre post : Str) (h : c ∉ pre) :
    splitOnce [c] (pre ++ c :: post) = some (pre, post) := by
  induction pre with
  | nil => simp [splitOnce, List.isPrefixOf]
  | cons a as ih =>
    have hac : ¬ ([c].isPrefixOf (a :: (as ++ c :: post)) = true) := by
      simp [List.isPrefixOf]
      intro hh
      exact h (by simp [hh])
    have has : c ∉ as := fun hm => h (List.mem_cons_of_mem a hm)
    simp only [List.cons_append, splitOnce, List.append_eq]
    rw [if_neg hac, ih has]

theorem filterMap_pixel_filter_map (val : Str) :
    val.filterMap pixel_filter_map
      = (val.filter (fun c => c == '.' || c == 'X')).map (fun c => c == 'X') := by
  induction val with
  | nil => rfl
  | cons a as ih =>
    by_cases h1 : a = '.'
    · subst h1; simpa [pixel_filter_map] using ih
    · by_cases h2 : a = 'X'
      · subst h2; simpa [pixel_filter_map] using ih
      · simp [pixel_filter_map, h1, h2, ih]

/-! ## Claims C1, C3, C4, C10 -/

set_option maxRecDepth 4000 in
/-- Claim C1 (code bug): the spec promises that every parser call
terminates normally (a `Prop` or end of sequence) for every input, in
particular for a tfon `ch: <cp> <symbol>` line with any 16-bit codepoint.
The code instead evaluates `SYMBOL[usize::from(cp)]` without a bounds
check, so a `ch:` line whose codepoint parses to 256 or more aborts the
program: on the single-line input `ch: 256 NUL` the parser panics. -/
theorem C1_tfon_ch_line_panics :
    tfon_prop ⟨[("ch: 256 NUL").toList], none⟩ = Panicky.panicked := by
  rfl

/-- Claim C3, counterexample: on the row line `row01=#X` the code's
`parse_row` yields `[true]` (the `#` is skipped and the `X` after it still
contributes), while the claim's reading — stop at the first invalid
character — yields no pixels at all. -/
theorem C3_counterexample :
    parse_row (("row01=#X").toList) = [true]
      ∧ parse_row_value_spec (("#X").toList) = [] := by
  exact ⟨rfl, rfl⟩

/-- Claim C3 as amended: in a `row...=<value>` ifnt line, a character of
the value that is neither `.` nor `X` is skipped (`filter_map`), so the
row's pixels are exactly the `.`/`X` characters of the whole value, in
order — pixels after an invalid character still contribute. -/
theorem C3_parse_row_filters_invalid (key val : Str)
    (hpre : ("row").toList.isPrefixOf key = true) (hkey : '=' ∉ key) :
    parse_row (key ++ '=' :: val)
      = (val.filter (fun c => c == '.' || c == 'X')).map (fun c => c == 'X') := by
  unfold parse_row
  have h1 : ("row").toList.isPrefixOf (key ++ '=' :: val) = true := by
    rw [List.isPrefixOf_iff_prefix] at hpre ⊢
    exact hpre.trans (List.prefix_append key ('=' :: val))
  have he : ("=").toList = ['='] := rfl
  rw [if_pos h1, he, splitOnce_single key val hkey]
  exact filterMap_pixel_filter_map val

theorem C3_parse_row_filters_invalid_witness :
    (("row").toList.isPrefixOf (("row01").toList) = true ∧ '=' ∉ ("row01").toList)
    ∧ parse_row ((("row01").toList) ++ '=' :: ((" .X#X").toList))
      = ((" .X#X").toList.filter (fun c => c == '.' || c == 'X')).map
          (fun c => c == 'X') :=
  ⟨⟨by decide, by decide⟩,
    C3_parse_row_filters_invalid (("row01").toList) ((" .X#X").toList)
      (by decide) (by decide)⟩

/-- Claim C4, counterexample: on the bdf line `FONT foo bar` the parser
yields `FontName("foo")` — only the second space-separated token — not the
whole remainder `foo bar` of the line. -/
theorem C4_counterexample :
    (bdf_prop ⟨[("FONT foo bar").toList], none⟩).1
        = some (.FontName (("foo").toList))
      ∧ ("foo").toList ≠ ("foo bar").toList := by
  exact ⟨rfl, by decide⟩

/-- Claim C4 as amended: for every bdf input line whose key is `FONT`, the
parser yields `FontName` carrying only the second `' '`-separated token of
the line — the text strictly between the first space and the next space
(or end of line) — not the entire remainder. -/
theorem C4_font_name_second_token (rest : Str) (ls : List Str) :
    bdf_prop ⟨(("FONT ").toList ++ rest) :: ls, none⟩
      = (some (.FontName (rest.takeWhile (fun c => c ≠ ' '))), ⟨ls, none⟩) := by
  rfl

/-- Claim C10: `Bitmap::from_bits(height, width, bytes)` succeeds exactly
when the byte vector length is `ceil(height*width/8)`, and the bitmap it
builds carries exactly the given height, width and bytes (`into_bits`
returns the same vector); any other length gives `None`. -/
theorem C10_from_bits_characterization (h w : Nat) (bytes : List Nat) :
    ((Bitmap.from_bits h w bytes).isSome ↔ bytes.length = (h * w + 7) / 8)
      ∧ (∀ b, Bitmap.from_bits h w bytes = some b →
          b.height = h ∧ b.width = w ∧ b.into_bits = bytes) := by
  by_cases hlen : bytes.length = (h * w + 7) / 8
  · constructor
    · simp [Bitmap.from_bits, hlen]
    · intro b hb
      simp [Bitmap.from_bits, hlen] at hb
      subst hb
      exact ⟨rfl, rfl, rfl⟩
  · constructor
    · simp [Bitmap.from_bits, hlen]
    · intro b hb
      simp [Bitmap.from_bits, hlen] at hb

/-! ## Bit-packing lemmas for Bitmap::push_row / Bitmap::pixels -/

theorem getD_set_self (buf : List Nat) (off v : Nat) (h : off < buf.length) :
    (buf.set off v).getD off 0 = v := by
  induction buf generalizing off with
  | nil => simp at h
  | cons a as ih =>
    cases off with
    | zero => simp
    | succ o =>
      simp only [List.set_cons_succ, List.getD_cons_succ]
      exact ih o (by simpa using h)

theorem getD_set_ne (buf : List Nat) (off j v : Nat) (h : off ≠ j) :
    (buf.set off v).getD j 0 = buf.getD j 0 := by
  induction buf generalizing off j with
  | nil => simp
  | cons a as ih =>
    cases off with
    | zero =>
      cases j with
      | zero => exact absurd rfl h
      | succ jj => simp
    | succ o =>
      cases j with
      | zero => simp
      | succ jj =>
        simp only [List.set_cons_succ, List.getD_cons_succ]
        exact ih o jj (fun hh => h (by rw [hh]))

theorem getD_append_zero (buf : List Nat) (j : Nat) :
    (buf ++ [0]).getD j 0 = buf.getD j 0 := by
  rcases Nat.lt_or_ge j buf.length with hj | hj
  · exact List.getD_append buf [0] 0 j hj
  · rw [List.getD_append_right buf [0] 0 j hj,
      List.getD_eq_default buf 0 hj]
    rcases Nat.sub_eq_zero_of_le hj ▸ Nat.eq_zero_or_pos (j - buf.length) with h0 | h0
    · simp [h0]
    · cases hh : j - buf.length with
      | zero => simp
      | succ m => simp

theorem bitAt_append_zero (buf : List Nat) (i : Nat) :
    bitAt (buf ++ [0]) i = bitAt buf i := by
  unfold bitAt
  rw [getD_append_zero]

theorem testBit_one_shift (b k : Nat) :
    Nat.testBit (1 <<< b) k = decide (b = k) := by
  rw [Nat.shiftLeft_eq, Nat.one_mul]
  exact Nat.testBit_two_pow

theorem bitAt_setBit_self (buf : List Nat) (pos : Nat)
    (h : pos / 8 < buf.length) :
    bitAt (setBit buf pos) pos = true := by
  unfold bitAt setBit
  rw [getD_set_self _ _ _ h]
  simp [testBit_one_shift]

theorem bitAt_setBit_ne (buf : List Nat) (pos i : Nat) (hne : i ≠ pos) :
    bitAt (setBit buf pos) i = bitAt buf i := by
  unfold bitAt setBit
  by_cases hoff : pos / 8 = i / 8
  · rcases Nat.lt_or_ge (pos / 8) buf.length with hb | hb
    · rw [hoff] at hb ⊢
      rw [getD_set_self _ _ _ hb]
      have hbit : ¬ (7 - pos % 8 = 7 - i % 8) := by
        intro hh
        have h1 : pos % 8 < 8 := Nat.mod_lt _ (by omega)
        have h2 : i % 8 < 8 := Nat.mod_lt _ (by omega)
        have : pos % 8 = i % 8 := by omega
        exact hne (by omega)
      rw [Nat.testBit_or, testBit_one_shift]
      simp [hbit]
    · rw [List.set_eq_of_length_le hb]
  · rw [getD_set_ne _ _ _ _ hoff]

theorem WFbuf_pushPix {f : Nat → Bool} {n : Nat} {buf : List Nat}
    (hwf : WFbuf f n buf) : WFbuf f (n + 1) (pushPix buf n (f n)) := by
  obtain ⟨hlen, hbits⟩ := hwf
  set eb := if n % 8 = 0 then buf ++ [0] else buf with heb
  have hlen' : eb.length = n / 8 + 1 := by
    rw [heb]
    split <;> simp [hlen] <;> omega
  have hglue : ∀ i, bitAt eb i = bitAt buf i := by
    intro i
    rw [heb]
    split
    · exact bitAt_append_zero buf i
    · rfl
  have hnext : ∀ i, (decide (i < n + 1) && f i)
      = if i = n then f n else (decide (i < n) && f i) := by
    intro i
    by_cases hin : i = n
    · subst hin
      simp
    · rw [if_neg hin]
      by_cases hlt : i < n
      · have h1 : i < n + 1 := by omega
        simp [hlt, h1]
      · have h2 : ¬ i < n + 1 := by omega
        simp [hlt, h2]
  have hbnd : n / 8 < eb.length := by omega
  have hpp : pushPix buf n (f n) = if f n then setBit eb n else eb := rfl
  by_cases hfn : f n = true
  · rw [hpp, if_pos hfn]
    refine ⟨?_, fun i => ?_⟩
    · unfold setBit
      rw [List.length_set, hlen']
      omega
    · rw [hnext i]
      by_cases hin : i = n
      · rw [if_pos hin, hin, hfn]
        exact bitAt_setBit_self eb n hbnd
      · rw [if_neg hin, bitAt_setBit_ne eb n i hin, hglue i, hbits i]
  · have hfn' : f n = false := by simpa using hfn
    rw [hpp, if_neg hfn]
    refine ⟨by rw [hlen']; omega, fun i => ?_⟩
    rw [hnext i, hglue i]
    by_cases hin : i = n
    · rw [if_pos hin, hin, hbits n, hfn']
      simp
    · rw [if_neg hin, hbits i]

theorem WFbuf_pushRowAux {f : Nat → Bool} (l : List Bool) (n : Nat)
    (buf : List Nat) (hwf : WFbuf f n buf)
    (hl : ∀ j, j < l.length → l.getD j false = f (n + j)) :
    WFbuf f (n + l.length) (pushRowAux buf n l) := by
  induction l generalizing n buf with
  | nil => simpa using hwf
  | cons p ps ih =>
    have hp : p = f n := by simpa using hl 0 (by simp)
    have hwf' : WFbuf f (n + 1) (pushPix buf n p) := by
      rw [hp]; exact WFbuf_pushPix ⟨hwf.1, hwf.2⟩
    have hl' : ∀ j, j < ps.length → ps.getD j false = f (n + 1 + j) := by
      intro j hj
      have := hl (j + 1) (by simpa using Nat.succ_lt_succ hj)
      rw [List.getD_cons_succ] at this
      rw [this]
      congr 1
      omega
    have harith : n + 1 + ps.length = n + (p :: ps).length := by
      simp
      omega
    rw [← harith]
    exact ih (n + 1) (pushPix buf n p) hwf' hl'

theorem length_pushPix (buf : List Nat) (pos : Nat) (p : Bool)
    (h : buf.length = (pos + 7) / 8) :
    (pushPix buf pos p).length = (pos + 1 + 7) / 8 := by
  unfold pushPix setBit
  by_cases h8 : pos % 8 = 0 <;> cases p <;>
    simp [h8, List.length_set, h] <;> omega

theorem length_pushRowAux (l : List Bool) (pos : Nat) (buf : List Nat)
    (h : buf.length = (pos + 7) / 8) :
    (pushRowAux buf pos l).length = (pos + l.length + 7) / 8 := by
  induction l generalizing pos buf with
  | nil => simpa using h
  | cons p ps ih =>
    have := ih (pos + 1) (pushPix buf pos p) (length_pushPix buf pos p h)
    show (pushRowAux (pushPix buf pos p) (pos + 1) ps).length = _
    rw [this]
    congr 1
    simp
    omega

theorem padRow_eq_rowSpec (r : List Bool) (w : Nat) :
    padRow r w = rowSpec w r := by
  unfold padRow rowSpec
  rw [List.take_append_eq_append_take, List.take_replicate]
  have hmin : min (w - r.length) w = w - r.length := by omega
  rw [hmin]

theorem length_rowSpec (w : Nat) (r : List Bool) :
    (rowSpec w r).length = w := by
  unfold rowSpec
  simp
  omega

theorem length_flatten_rowSpec (w : Nat) (rs : List (List Bool)) :
    ((rs.map (rowSpec w)).flatten).length = rs.length * w := by
  induction rs with
  | nil => simp
  | cons r rest ih =>
    simp only [List.map_cons, List.flatten_cons, List.length_append, ih,
      length_rowSpec, List.length_cons]
    ring

theorem WFbuf_congr {f g : Nat → Bool} {n : Nat} {buf : List Nat}
    (hwf : WFbuf f n buf) (hfg : ∀ i, i < n → f i = g i) :
    WFbuf g n buf := by
  refine ⟨hwf.1, fun i => ?_⟩
  rw [hwf.2 i]
  by_cases hi : i < n
  · simp [hi, hfg i hi]
  · simp [hi]

theorem foldl_push_row_wf (w : Nat) (rows : List (List Bool)) :
    rows.length ≤ 255 →
    (rows.foldl Bitmap.push_row (Bitmap.new w)).width = w
      ∧ (rows.foldl Bitmap.push_row (Bitmap.new w)).height = rows.length
      ∧ WFbuf (fun i => ((rows.map (rowSpec w)).flatten.getD i false))
          (rows.length * w)
          (rows.foldl Bitmap.push_row (Bitmap.new w)).bmap := by
  induction rows using List.reverseRecOn with
  | nil =>
    intro hlen
    refine ⟨rfl, rfl, by simp [WFbuf, Bitmap.new], fun i => ?_⟩
    simp [bitAt, Bitmap.new]
  | append_singleton rs r ih =>
    intro hlen
    have hlen' : rs.length + 1 ≤ 255 := by simpa using hlen
    obtain ⟨hw, hh, hwf⟩ := ih (by omega)
    have hfl : ((rs.map (rowSpec w)).flatten).length = rs.length * w :=
      length_flatten_rowSpec w rs
    have hwf' : WFbuf
        (fun i => (((rs ++ [r]).map (rowSpec w)).flatten.getD i false))
        (rs.length * w)
        ((rs.foldl Bitmap.push_row (Bitmap.new w)).bmap) := by
      refine WFbuf_congr hwf (fun i hi => ?_)
      simp only [List.map_append, List.map_cons, List.map_nil,
        List.flatten_append, List.flatten_cons, List.flatten_nil,
        List.append_nil]
      rw [List.getD_append _ _ _ _ (by rw [hfl]; exact hi)]
    have hl : ∀ j, j < (padRow r w).length →
        (padRow r w).getD j false
          = (((rs ++ [r]).map (rowSpec w)).flatten.getD (rs.length * w + j)
              false) := by
      intro j hj
      simp only [List.map_append, List.map_cons, List.map_nil,
        List.flatten_append, List.flatten_cons, List.flatten_nil,
        List.append_nil]
      rw [List.getD_append_right _ _ _ _ (by rw [hfl]; omega), hfl]
      rw [padRow_eq_rowSpec]
      congr 1
      omega
    have hstep := WFbuf_pushRowAux (padRow r w) (rs.length * w)
      ((rs.foldl Bitmap.push_row (Bitmap.new w)).bmap) hwf' hl
    have hlenpad : (padRow r w).length = w := by
      rw [padRow_eq_rowSpec]; exact length_rowSpec w r
    rw [hlenpad] at hstep
    have hfold : (rs ++ [r]).foldl Bitmap.push_row (Bitmap.new w)
        = (rs.foldl Bitmap.push_row (Bitmap.new w)).push_row r := by
      simp
    refine ⟨by rw [hfold]; exact hw, ?_, ?_⟩
    · rw [hfold]
      show ((rs.foldl Bitmap.push_row (Bitmap.new w)).height + 1) % 256
        = (rs ++ [r]).length
      rw [hh, Nat.mod_eq_of_lt (by omega)]
      simp
    rw [hfold]
    show WFbuf _ ((rs ++ [r]).length * w)
      (pushRowAux _ ((rs.foldl Bitmap.push_row (Bitmap.new w)).height
        * (rs.foldl Bitmap.push_row (Bitmap.new w)).width) (padRow r
          (rs.foldl Bitmap.push_row (Bitmap.new w)).width))
    rw [hw, hh]
    have harr : (rs ++ [r]).length * w = rs.length * w + w := by
      simp [Nat.add_mul]
    rw [harr]
    exact hstep

/-! ## Lemmas about the ifnt writer -/

theorem render_ifnt_rows_out (width : Nat) (pixels : List Bool) :
    ∀ (col row : Nat) (out1 out2 : Str),
      render_ifnt_rows width pixels col row (out1 ++ out2)
        = out1 ++ render_ifnt_rows width pixels col row out2 := by
  induction pixels with
  | nil => intro col row out1 out2; rfl
  | cons p rest ih =>
    intro col row out1 out2
    by_cases hc : col = 0 <;>
      simp [render_ifnt_rows, hc, List.append_assoc, ih] <;>
      split <;> rfl

theorem ifnt_write_loop_cases (ps : List Prop') :
    ∀ (ch : Bool) (out : Str),
      (chViolation ps ch = true
        ∧ ifnt_write_loop ps ch out = .error (.Expected ("Character")))
      ∨ (chViolation ps ch = false
        ∧ ∃ t, ifnt_write_loop ps ch out = .ok (out ++ t)) := by
  induction ps with
  | nil =>
    intro ch out
    right
    exact ⟨rfl, [], by simp [ifnt_write_loop]⟩
  | cons p ps ih =>
    intro ch out
    cases p with
    | CodePoint cp =>
      rcases ih false (out ++ ifnt_char_header cp) with ⟨hv, he⟩ | ⟨hv, t, ho⟩
      · exact .inl ⟨hv, he⟩
      · refine .inr ⟨hv, ifnt_char_header cp ++ t, ?_⟩
        rw [show ifnt_write_loop (Prop'.CodePoint cp :: ps) ch out
          = ifnt_write_loop ps false (out ++ ifnt_char_header cp) from rfl, ho]
        simp [List.append_assoc]
    | Bitmap bmap =>
      by_cases hch : ch = true
      · subst hch
        exact .inl ⟨rfl, by simp [ifnt_write_loop]⟩
      · have hch' : ch = false := by simpa using hch
        subst hch'
        have hstep : ifnt_write_loop (Prop'.Bitmap bmap :: ps) false out
            = ifnt_write_loop ps true
                (render_ifnt_rows bmap.width bmap.pixels 0 1 out) := rfl
        have hren : render_ifnt_rows bmap.width bmap.pixels 0 1 out
            = out ++ render_ifnt_rows bmap.width bmap.pixels 0 1 [] := by
          have := render_ifnt_rows_out bmap.width bmap.pixels 0 1 out []
          simpa using this
        rcases ih true
            (out ++ render_ifnt_rows bmap.width bmap.pixels 0 1 []) with
          ⟨hv, he⟩ | ⟨hv, t, ho⟩
        · refine .inl ⟨by simpa [chViolation] using hv, ?_⟩
          rw [hstep, hren, he]
        · refine .inr ⟨by simpa [chViolation] using hv,
            render_ifnt_rows bmap.width bmap.pixels 0 1 [] ++ t, ?_⟩
          rw [hstep, hren, ho]
          simp [List.append_assoc]
    | Unknown s => exact ih ch out
    | FontName s => exact ih ch out
    | FontNumber n => exact ih ch out
    | FontHeight n => exact ih ch out
    | FontWidth n => exact ih ch out
    | CharSpacing n => exact ih ch out
    | LineSpacing n => exact ih ch out
    | Baseline n => exact ih ch out
    | MaxCharNumber n => exact ih ch out

theorem font_name_none_iff (props : List Prop') :
    props.findSome? Prop'.font_name = none
      ↔ ∀ p ∈ props, ∀ v, p ≠ .FontName v := by
  rw [List.findSome?_eq_none_iff]
  constructor
  · intro h p hp v hv
    subst hv
    simpa [Prop'.font_name] using h _ hp
  · intro h p hp
    cases p <;> first
      | rfl
      | exact absurd rfl (h _ hp _)

theorem font_height_none_iff (props : List Prop') :
    props.findSome? Prop'.font_height = none
      ↔ ∀ p ∈ props, (∀ v, p ≠ .FontHeight v) ∧ (∀ b, p ≠ .Bitmap b) := by
  rw [List.findSome?_eq_none_iff]
  constructor
  · intro h p hp
    refine ⟨fun v hv => ?_, fun b hb => ?_⟩
    · subst hv; simpa [Prop'.font_height] using h _ hp
    · subst hb; simpa [Prop'.font_height] using h _ hp
  · intro h p hp
    cases p <;> first
      | rfl
      | exact absurd rfl ((h _ hp).1 _)
      | exact absurd rfl ((h _ hp).2 _)

theorem char_spacing_none_iff (props : List Prop') :
    props.findSome? Prop'.char_spacing = none
      ↔ ∀ p ∈ props, ∀ v, p ≠ .CharSpacing v := by
  rw [List.findSome?_eq_none_iff]
  constructor
  · intro h p hp v hv
    subst hv
    simpa [Prop'.char_spacing] using h _ hp
  · intro h p hp
    cases p <;> first
      | rfl
      | exact absurd rfl (h _ hp _)

theorem line_spacing_none_iff (props : List Prop') :
    props.findSome? Prop'.line_spacing = none
      ↔ ∀ p ∈ props, ∀ v, p ≠ .LineSpacing v := by
  rw [List.findSome?_eq_none_iff]
  constructor
  · intro h p hp v hv
    subst hv
    simpa [Prop'.line_spacing] using h _ hp
  · intro h p hp
    cases p <;> first
      | rfl
      | exact absurd rfl (h _ hp _)

theorem code_point_none_iff (props : List Prop') :
    props.filterMap Prop'.code_point = []
      ↔ ∀ p ∈ props, ∀ c, p ≠ .CodePoint c := by
  rw [List.filterMap_eq_nil_iff]
  constructor
  · intro h p hp c hc
    subst hc
    simpa [Prop'.code_point] using h _ hp
  · intro h p hp
    cases p <;> first
      | rfl
      | exact absurd rfl (h _ hp _)

theorem findSome?_first {α β : Type} (f : α → Option β) (a : List α) (x : α)
    (b : List α) (v : β) (hx : f x = some v) (ha : ∀ p ∈ a, f p = none) :
    (a ++ x :: b).findSome? f = some v := by
  induction a with
  | nil => simp [List.findSome?_cons, hx]
  | cons q qs ih =>
    rw [List.cons_append, List.findSome?_cons, ha q (by simp)]
    exact ih (fun p hp => ha p (by simp [hp]))

theorem font_name_isSome_iff (props : List Prop') :
    (props.findSome? Prop'.font_name).isSome = true
      ↔ ∃ v, .FontName v ∈ props := by
  constructor
  · intro h
    rcases Option.isSome_iff_exists.mp h with ⟨fn, hfn⟩
    rcases List.exists_of_findSome?_eq_some hfn with ⟨p, hp, hpv⟩
    cases p <;> simp [Prop'.font_name] at hpv
    exact ⟨_, hp⟩
  · rintro ⟨v, hv⟩
    cases hn : props.findSome? Prop'.font_name with
    | some fn => rfl
    | none =>
      exact absurd rfl ((font_name_none_iff props).mp hn _ hv v)

theorem font_height_isSome_iff (props : List Prop') :
    (props.findSome? Prop'.font_height).isSome = true
      ↔ ∃ p ∈ props, (p.font_height).isSome = true := by
  constructor
  · intro h
    rcases Option.isSome_iff_exists.mp h with ⟨fh, hfh⟩
    rcases List.exists_of_findSome?_eq_some hfh with ⟨p, hp, hpv⟩
    exact ⟨p, hp, by simp [hpv]⟩
  · rintro ⟨p, hp, hps⟩
    cases hn : props.findSome? Prop'.font_height with
    | some fh => rfl
    | none =>
      rw [List.findSome?_eq_none_iff.mp hn p hp] at hps
      simp at hps

theorem char_spacing_isSome_iff (props : List Prop') :
    (props.findSome? Prop'.char_spacing).isSome = true
      ↔ ∃ v, .CharSpacing v ∈ props := by
  constructor
  · intro h
    rcases Option.isSome_iff_exists.mp h with ⟨cs, hcs⟩
    rcases List.exists_of_findSome?_eq_some hcs with ⟨p, hp, hpv⟩
    cases p <;> simp [Prop'.char_spacing] at hpv
    exact ⟨_, hp⟩
  · rintro ⟨v, hv⟩
    cases hn : props.findSome? Prop'.char_spacing with
    | some cs => rfl
    | none =>
      exact absurd rfl ((char_spacing_none_iff props).mp hn _ hv v)

/-- Case analysis of `ifnt::write`: exactly one of the five lookup errors,
or the header succeeds and the result is the property loop run on the
header text. -/
theorem ifnt_write_characterize (props : List Prop') :
    (props.findSome? Prop'.font_name = none
      ∧ ifnt_write props = .error (.Expected ("FontName")))
    ∨ (∃ fn, props.findSome? Prop'.font_name = some fn
        ∧ props.findSome? Prop'.font_height = none
        ∧ ifnt_write props = .error (.Expected ("FontHeight")))
    ∨ (∃ fn fh, props.findSome? Prop'.font_name = some fn
        ∧ props.findSome? Prop'.font_height = some fh
        ∧ props.findSome? Prop'.char_spacing = none
        ∧ ifnt_write props = .error (.Expected ("CharSpacing")))
    ∨ (∃ fn fh cs, props.findSome? Prop'.font_name = some fn
        ∧ props.findSome? Prop'.font_height = some fh
        ∧ props.findSome? Prop'.char_spacing = some cs
        ∧ props.findSome? Prop'.line_spacing = none
        ∧ ifnt_write props = .error (.Expected ("LineSpacing")))
    ∨ (∃ fn fh cs ls, props.findSome? Prop'.font_name = some fn
        ∧ props.findSome? Prop'.font_height = some fh
        ∧ props.findSome? Prop'.char_spacing = some cs
        ∧ props.findSome? Prop'.line_spacing = some ls
        ∧ (props.filterMap Prop'.code_point).getLast? = none
        ∧ ifnt_write props = .error (.Expected ("MaxCharNumber")))
    ∨ (∃ fn fh cs ls mcn, props.findSome? Prop'.font_name = some fn
        ∧ props.findSome? Prop'.font_height = some fh
        ∧ props.findSome? Prop'.char_spacing = some cs
        ∧ props.findSome? Prop'.line_spacing = some ls
        ∧ (props.filterMap Prop'.code_point).getLast? = some mcn
        ∧ ifnt_write props
            = ifnt_write_loop props true (ifnt_header fn fh cs ls mcn)) := by
  unfold ifnt_write
  cases h1 : props.findSome? Prop'.font_name with
  | none => exact .inl ⟨rfl, rfl⟩
  | some fn =>
    cases h2 : props.findSome? Prop'.font_height with
    | none => exact .inr (.inl ⟨fn, rfl, rfl, rfl⟩)
    | some fh =>
      cases h3 : props.findSome? Prop'.char_spacing with
      | none => exact .inr (.inr (.inl ⟨fn, fh, rfl, rfl, rfl, rfl⟩))
      | some cs =>
        cases h4 : props.findSome? Prop'.line_spacing with
        | none =>
          exact .inr (.inr (.inr (.inl ⟨fn, fh, cs, rfl, rfl, rfl, rfl, rfl⟩)))
        | some ls =>
          cases h5 : (props.filterMap Prop'.code_point).getLast? with
          | none =>
            exact .inr (.inr (.inr (.inr (.inl
              ⟨fn, fh, cs, ls, rfl, rfl, rfl, rfl, rfl, rfl⟩))))
          | some mcn =>
            exact .inr (.inr (.inr (.inr (.inr
              ⟨fn, fh, cs, ls, mcn, rfl, rfl, rfl, rfl, rfl, rfl⟩))))

/-- Claim C2, counterexample: a `Prop` sequence with two consecutive
`CodePoint` entries and no intervening `Bitmap` is written by the ifnt
writer without any error — the writer completes successfully instead of
returning the "expected Character" error the claim asserts. -/
theorem C2_counterexample :
    (ifnt_write [.FontName (("f").toList), .FontHeight 7, .CharSpacing 0,
      .LineSpacing 0, .CodePoint 65, .CodePoint 66]).isOk = true := by
  rfl

/-- Claim C2 as amended: the ifnt writer returns the "expected Character"
error exactly when the header lookups all succeed and some `Bitmap` entry
is reached with no codepoint pending — a `Bitmap` before any `CodePoint`,
or a second `Bitmap` with no `CodePoint` in between (`chViolation`).  Two
consecutive `CodePoint` entries do not trigger it: the writer completes
successfully when the rest of the sequence is well formed. -/
theorem C2_expected_character_iff (props : List Prop') :
    ifnt_write props = .error (.Expected ("Character"))
      ↔ (ifnt_header_ok props = true ∧ chViolation props true = true) := by
  unfold ifnt_write ifnt_header_ok
  cases h1 : props.findSome? Prop'.font_name with
  | none => simp
  | some fn =>
    cases h2 : props.findSome? Prop'.font_height with
    | none => simp
    | some fh =>
      cases h3 : props.findSome? Prop'.char_spacing with
      | none => simp
      | some cs =>
        cases h4 : props.findSome? Prop'.line_spacing with
        | none => simp
        | some ls =>
          cases h5 : (props.filterMap Prop'.code_point).getLast? with
          | none => simp
          | some mcn =>
            simp only [Option.isSome_some, Bool.and_self, true_and]
            rcases ifnt_write_loop_cases props true
                (ifnt_header fn fh cs ls mcn) with ⟨hv, he⟩ | ⟨hv, t, ho⟩
            · simp [he, hv]
            · simp [ho, hv]

theorem C2_expected_character_iff_witness :
    ifnt_write [.FontName (("f").toList), .FontHeight 1, .CharSpacing 0,
      .LineSpacing 0, .CodePoint 65, .Bitmap ⟨1, 1, [128]⟩,
      .Bitmap ⟨1, 1, [128]⟩]
      = .error (.Expected ("Character")) :=
  (C2_expected_character_iff [.FontName (("f").toList), .FontHeight 1,
    .CharSpacing 0, .LineSpacing 0, .CodePoint 65, .Bitmap ⟨1, 1, [128]⟩,
    .Bitmap ⟨1, 1, [128]⟩]).mpr ⟨rfl, rfl⟩

/-- Claim C6: when the four scalar lookups succeed, the `MaxCharNumber`
value emitted by the ifnt writer is the codepoint of the *last*
`CodePoint` entry of the sequence (decomposition with no `CodePoint` after
it), and a sequence with no `CodePoint` at all makes the writer return
the "expected MaxCharNumber" error. -/
theorem C6_max_char_number_is_last (props : List Prop') :
    ((∀ p ∈ props, ∀ c, p ≠ .CodePoint c) →
      (props.findSome? Prop'.font_name).isSome = true →
      (props.findSome? Prop'.font_height).isSome = true →
      (props.findSome? Prop'.char_spacing).isSome = true →
      (props.findSome? Prop'.line_spacing).isSome = true →
      ifnt_write props = .error (.Expected ("MaxCharNumber")))
    ∧ (∀ a mcn b, props = a ++ .CodePoint mcn :: b →
        (∀ p ∈ b, ∀ c, p ≠ .CodePoint c) →
        (ifnt_write props).isOk = true →
        ∃ s u t, ifnt_write props = .ok s
          ∧ s = u ++ ("\nMaxCharNumber=").toList ++ natStr mcn
              ++ ("\n").toList ++ t) := by
  constructor
  · intro hno h1 h2 h3 h4
    rcases Option.isSome_iff_exists.mp h1 with ⟨fn, hfn⟩
    rcases Option.isSome_iff_exists.mp h2 with ⟨fh, hfh⟩
    rcases Option.isSome_iff_exists.mp h3 with ⟨cs, hcs⟩
    rcases Option.isSome_iff_exists.mp h4 with ⟨ls, hls⟩
    have h5 : (props.filterMap Prop'.code_point).getLast? = none := by
      rw [List.getLast?_eq_none_iff]
      exact (code_point_none_iff props).mpr hno
    unfold ifnt_write
    rw [hfn, hfh, hcs, hls, h5]
  · intro a mcn b hdecomp hb hok
    have hb0 : List.filterMap Prop'.code_point b = [] :=
      (code_point_none_iff b).mpr hb
    have h5 : (props.filterMap Prop'.code_point).getLast? = some mcn := by
      subst hdecomp
      rw [List.filterMap_append, List.filterMap_cons]
      simp only [Prop'.code_point, hb0]
      exact List.getLast?_concat _
    rcases ifnt_write_characterize props with
      ⟨_, hW⟩ | ⟨fn, _, _, hW⟩ | ⟨fn, fh, _, _, _, hW⟩
      | ⟨fn, fh, cs, _, _, _, _, hW⟩ | ⟨fn, fh, cs, ls, _, _, _, _, h5', hW⟩
      | ⟨fn, fh, cs, ls, mcn', _, _, _, _, h5', hW⟩
    · rw [hW] at hok; simp [Except.isOk, Except.toBool] at hok
    · rw [hW] at hok; simp [Except.isOk, Except.toBool] at hok
    · rw [hW] at hok; simp [Except.isOk, Except.toBool] at hok
    · rw [hW] at hok; simp [Except.isOk, Except.toBool] at hok
    · rw [h5] at h5'; cases h5'
    · have hmm : mcn = mcn' := by
        rw [h5] at h5'
        exact Option.some.inj h5'
      subst hmm
      rcases ifnt_write_loop_cases props true (ifnt_header fn fh cs ls mcn)
        with ⟨hv, he⟩ | ⟨hv, t, ho⟩
      · rw [hW, he] at hok
        simp [Except.isOk, Except.toBool] at hok
      · refine ⟨ifnt_header fn fh cs ls mcn ++ t,
          ("[FontInfo]\nFontName=").toList ++ padTo64 fn
            ++ ("\nFontHeight=").toList ++ natStr fh
            ++ ("\nCharSpacing=").toList ++ natStr cs
            ++ ("\nLineSpacing=").toList ++ natStr ls, t,
          by rw [hW, ho], ?_⟩
        simp [ifnt_header, List.append_assoc]

theorem C6_max_char_number_is_last_witness :
    ifnt_write [.FontName (("f").toList), .FontHeight 1, .CharSpacing 0,
        .LineSpacing 0]
      = .error (.Expected ("MaxCharNumber"))
    ∧ ∃ s u t, ifnt_write [.FontName (("f").toList), .FontHeight 1,
        .CharSpacing 0, .LineSpacing 0, .CodePoint 70, .CodePoint 65]
      = .ok s
      ∧ s = u ++ ("\nMaxCharNumber=").toList ++ natStr 65
          ++ ("\n").toList ++ t :=
  ⟨(C6_max_char_number_is_last [.FontName (("f").toList), .FontHeight 1,
      .CharSpacing 0, .LineSpacing 0]).1 (by simp) rfl rfl rfl rfl,
    (C6_max_char_number_is_last [.FontName (("f").toList), .FontHeight 1,
      .CharSpacing 0, .LineSpacing 0, .CodePoint 70, .CodePoint 65]).2
      [.FontName (("f").toList), .FontHeight 1, .CharSpacing 0,
        .LineSpacing 0, .CodePoint 70] 65 [] rfl (by simp) rfl⟩

/-- Claim C5, counterexample: a sequence with no `FontHeight` property at
all, but containing a `Bitmap`, is written successfully by the ifnt writer
— `Prop::font_height` also answers with a `Bitmap`'s height, so the claim's
"no FontHeight property yields the expected-FontHeight error" fails. -/
theorem C5_counterexample :
    (ifnt_write [.FontName (("f").toList), .CharSpacing 0, .LineSpacing 0,
        .CodePoint 65, .Bitmap ⟨1, 1, [128]⟩]).isOk = true
      ∧ (∀ p ∈ [Prop'.FontName (("f").toList), .CharSpacing 0,
          .LineSpacing 0, .CodePoint 65, .Bitmap ⟨1, 1, [128]⟩],
          ∀ v, p ≠ .FontHeight v) := by
  exact ⟨rfl, by simp⟩

/-- Claim C5 as amended: the ifnt writer reports "expected FontName" /
"CharSpacing" / "LineSpacing" exactly when that property is absent (and
the checks before it passed); "expected FontHeight" is reported exactly
when the sequence has neither a `FontHeight` property *nor any Bitmap*
(a bitmap's height serves as the font height); and on success the header
is built from the first occurrence (shown for `FontName`). -/
theorem C5_required_scalar_errors (props : List Prop') :
    (ifnt_write props = .error (.Expected ("FontName"))
        ↔ (∀ p ∈ props, ∀ v, p ≠ .FontName v))
    ∧ (ifnt_write props = .error (.Expected ("FontHeight"))
        ↔ ((∃ v, .FontName v ∈ props)
          ∧ ∀ p ∈ props, (∀ v, p ≠ .FontHeight v) ∧ (∀ bb, p ≠ .Bitmap bb)))
    ∧ (ifnt_write props = .error (.Expected ("CharSpacing"))
        ↔ ((∃ v, .FontName v ∈ props)
          ∧ (∃ p ∈ props, (p.font_height).isSome = true)
          ∧ ∀ p ∈ props, ∀ v, p ≠ .CharSpacing v))
    ∧ (ifnt_write props = .error (.Expected ("LineSpacing"))
        ↔ ((∃ v, .FontName v ∈ props)
          ∧ (∃ p ∈ props, (p.font_height).isSome = true)
          ∧ (∃ v, .CharSpacing v ∈ props)
          ∧ ∀ p ∈ props, ∀ v, p ≠ .LineSpacing v))
    ∧ (∀ a v b, props = a ++ .FontName v :: b →
        (∀ p ∈ a, ∀ w, p ≠ .FontName w) →
        (ifnt_write props).isOk = true →
        ∃ s t, ifnt_write props = .ok s
          ∧ s = ("[FontInfo]\nFontName=").toList ++ padTo64 v ++ t) := by
  rcases ifnt_write_characterize props with
    ⟨h1, hW⟩ | ⟨fn, h1, h2, hW⟩ | ⟨fn, fh, h1, h2, h3, hW⟩
    | ⟨fn, fh, cs, h1, h2, h3, h4, hW⟩
    | ⟨fn, fh, cs, ls, h1, h2, h3, h4, h5, hW⟩
    | ⟨fn, fh, cs, ls, mcn, h1, h2, h3, h4, h5, hW⟩
  · refine ⟨iff_of_true hW ((font_name_none_iff props).mp h1), ?_, ?_, ?_, ?_⟩
    · refine iff_of_false (by rw [hW]; simp) ?_
      rintro ⟨⟨v, hv⟩, -⟩
      exact (font_name_none_iff props).mp h1 _ hv v rfl
    · refine iff_of_false (by rw [hW]; simp) ?_
      rintro ⟨⟨v, hv⟩, -, -⟩
      exact (font_name_none_iff props).mp h1 _ hv v rfl
    · refine iff_of_false (by rw [hW]; simp) ?_
      rintro ⟨⟨v, hv⟩, -, -, -⟩
      exact (font_name_none_iff props).mp h1 _ hv v rfl
    · intro a v b hd ha hok
      rw [hW] at hok
      simp [Except.isOk, Except.toBool] at hok
  · have hfnmem : ∃ v, .FontName v ∈ props :=
      (font_name_isSome_iff props).mp (by rw [h1]; rfl)
    refine ⟨?_, iff_of_true hW ⟨hfnmem, (font_height_none_iff props).mp h2⟩,
      ?_, ?_, ?_⟩
    · refine iff_of_false (by rw [hW]; simp) ?_
      intro hall
      rcases hfnmem with ⟨v, hv⟩
      exact hall _ hv v rfl
    · refine iff_of_false (by rw [hW]; simp) ?_
      rintro ⟨-, ⟨p, hp, hps⟩, -⟩
      rw [List.findSome?_eq_none_iff.mp h2 p hp] at hps
      simp at hps
    · refine iff_of_false (by rw [hW]; simp) ?_
      rintro ⟨-, ⟨p, hp, hps⟩, -, -⟩
      rw [List.findSome?_eq_none_iff.mp h2 p hp] at hps
      simp at hps
    · intro a v b hd ha hok
      rw [hW] at hok
      simp [Except.isOk, Except.toBool] at hok
  · have hfnmem : ∃ v, .FontName v ∈ props :=
      (font_name_isSome_iff props).mp (by rw [h1]; rfl)
    have hfhex : ∃ p ∈ props, (p.font_height).isSome = true :=
      (font_height_isSome_iff props).mp (by rw [h2]; rfl)
    refine ⟨?_, ?_,
      iff_of_true hW ⟨hfnmem, hfhex, (char_spacing_none_iff props).mp h3⟩,
      ?_, ?_⟩
    · refine iff_of_false (by rw [hW]; simp) ?_
      intro hall
      rcases hfnmem with ⟨v, hv⟩
      exact hall _ hv v rfl
    · refine iff_of_false (by rw [hW]; simp) ?_
      rintro ⟨-, hall⟩
      rw [(font_height_none_iff props).mpr hall] at h2
      cases h2
    · refine iff_of_false (by rw [hW]; simp) ?_
      rintro ⟨-, -, ⟨v, hv⟩, -⟩
      exact (char_spacing_none_iff props).mp h3 _ hv v rfl
    · intro a v b hd ha hok
      rw [hW] at hok
      simp [Except.isOk, Except.toBool] at hok
  · have hfnmem : ∃ v, .FontName v ∈ props :=
      (font_name_isSome_iff props).mp (by rw [h1]; rfl)
    have hfhex : ∃ p ∈ props, (p.font_height).isSome = true :=
      (font_height_isSome_iff props).mp (by rw [h2]; rfl)
    have hcsmem : ∃ v, .CharSpacing v ∈ props :=
      (char_spacing_isSome_iff props).mp (by rw [h3]; rfl)
    refine ⟨?_, ?_, ?_,
      iff_of_true hW
        ⟨hfnmem, hfhex, hcsmem, (line_spacing_none_iff props).mp h4⟩, ?_⟩
    · refine iff_of_false (by rw [hW]; simp) ?_
      intro hall
      rcases hfnmem with ⟨v, hv⟩
      exact hall _ hv v rfl
    · refine iff_of_false (by rw [hW]; simp) ?_
      rintro ⟨-, hall⟩
      rw [(font_height_none_iff props).mpr hall] at h2
      cases h2
    · refine iff_of_false (by rw [hW]; simp) ?_
      rintro ⟨-, -, hall⟩
      rw [(char_spacing_none_iff props).mpr hall] at h3
      cases h3
    · intro a v b hd ha hok
      rw [hW] at hok
      simp [Except.isOk, Except.toBool] at hok
  · have hfnmem : ∃ v, .FontName v ∈ props :=
      (font_name_isSome_iff props).mp (by rw [h1]; rfl)
    refine ⟨?_, ?_, ?_, ?_, ?_⟩
    · refine iff_of_false (by rw [hW]; simp) ?_
      intro hall
      rcases hfnmem with ⟨v, hv⟩
      exact hall _ hv v rfl
    · refine iff_of_false (by rw [hW]; simp) ?_
      rintro ⟨-, hall⟩
      rw [(font_height_none_iff props).mpr hall] at h2
      cases h2
    · refine iff_of_false (by rw [hW]; simp) ?_
      rintro ⟨-, -, hall⟩
      rw [(char_spacing_none_iff props).mpr hall] at h3
      cases h3
    · refine iff_of_false (by rw [hW]; simp) ?_
      rintro ⟨-, -, -, hall⟩
      rw [(line_spacing_none_iff props).mpr hall] at h4
      cases h4
    · intro a v b hd ha hok
      rw [hW] at hok
      simp [Except.isOk, Except.toBool] at hok
  · have hfnmem : ∃ v, .FontName v ∈ props :=
      (font_name_isSome_iff props).mp (by rw [h1]; rfl)
    have hne : ∀ nm : String, nm ≠ ("Character") →
        ¬ ifnt_write props = .error (.Expected nm) := by
      intro nm hnm hc
      rcases ifnt_write_loop_cases props true (ifnt_header fn fh cs ls mcn)
        with ⟨-, he⟩ | ⟨-, t, ho⟩
      · rw [hW, he] at hc
        exact hnm (Error'.Expected.inj (Except.error.inj hc)).symm
      · rw [hW, ho] at hc
        cases hc
    refine ⟨?_, ?_, ?_, ?_, ?_⟩
    · refine iff_of_false (hne _ (by decide)) ?_
      intro hall
      rcases hfnmem with ⟨v, hv⟩
      exact hall _ hv v rfl
    · refine iff_of_false (hne _ (by decide)) ?_
      rintro ⟨-, hall⟩
      rw [(font_height_none_iff props).mpr hall] at h2
      cases h2
    · refine iff_of_false (hne _ (by decide)) ?_
      rintro ⟨-, -, hall⟩
      rw [(char_spacing_none_iff props).mpr hall] at h3
      cases h3
    · refine iff_of_false (hne _ (by decide)) ?_
      rintro ⟨-, -, -, hall⟩
      rw [(line_spacing_none_iff props).mpr hall] at h4
      cases h4
    · intro a v b hd ha hok
      have hfn_first : props.findSome? Prop'.font_name = some v := by
        rw [hd]
        refine findSome?_first _ a _ b v rfl ?_
        intro p hp
        cases p <;> first
          | rfl
          | exact absurd rfl (ha _ hp _)
      have hfnv : fn = v := by
        rw [hfn_first] at h1
        exact (Option.some.inj h1).symm
      subst hfnv
      rcases ifnt_write_loop_cases props true (ifnt_header fn fh cs ls mcn)
        with ⟨-, he⟩ | ⟨-, t, ho⟩
      · rw [hW, he] at hok
        simp [Except.isOk, Except.toBool] at hok
      · refine ⟨ifnt_header fn fh cs ls mcn ++ t,
          ("\nFontHeight=").toList ++ natStr fh
            ++ ("\nCharSpacing=").toList ++ natStr cs
            ++ ("\nLineSpacing=").toList ++ natStr ls
            ++ ("\nMaxCharNumber=").toList ++ natStr mcn
            ++ ("\n").toList ++ t,
          by rw [hW, ho], ?_⟩
        simp [ifnt_header, List.append_assoc]

theorem C5_required_scalar_errors_witness :
    ifnt_write [Prop'.CharSpacing 0, .LineSpacing 0, .CodePoint 65,
        .Bitmap ⟨1, 1, [128]⟩]
      = .error (.Expected ("FontName"))
    ∧ ifnt_write [Prop'.FontName (("f").toList), .CharSpacing 0,
        .LineSpacing 0, .CodePoint 65]
      = .error (.Expected ("FontHeight"))
    ∧ ∃ s t, ifnt_write [Prop'.FontName (("f").toList), .FontHeight 1,
        .CharSpacing 0, .LineSpacing 0, .CodePoint 65]
      = .ok s
      ∧ s = ("[FontInfo]\nFontName=").toList ++ padTo64 (("f").toList) ++ t :=
  ⟨(C5_required_scalar_errors [Prop'.CharSpacing 0, .LineSpacing 0,
      .CodePoint 65, .Bitmap ⟨1, 1, [128]⟩]).1.mpr (by simp),
    (C5_required_scalar_errors [Prop'.FontName (("f").toList),
      .CharSpacing 0, .LineSpacing 0, .CodePoint 65]).2.1.mpr
      ⟨⟨("f").toList, by simp⟩, by simp⟩,
    (C5_required_scalar_errors [Prop'.FontName (("f").toList), .FontHeight 1,
      .CharSpacing 0, .LineSpacing 0, .CodePoint 65]).2.2.2.2 []
      (("f").toList)
      [Prop'.FontHeight 1, .CharSpacing 0, .LineSpacing 0, .CodePoint 65]
      rfl (by simp) rfl⟩

/-! ## Lemmas for the ifntx / tfon row-block pushback -/

theorem isEmpty_false_of_length {l : Str} {w : Nat} (h : l.length = w)
    (hw : 0 < w) : l.isEmpty = false := by
  cases l with
  | nil => simp at h; omega
  | cons c cs => rfl

theorem splitOnce_none_of_not_mem {sep0 : Char} (seprest : Str) :
    ∀ l : Str, sep0 ∉ l → splitOnce (sep0 :: seprest) l = none := by
  intro l
  induction l with
  | nil => intro h; rfl
  | cons c cs ih =>
    intro h
    have hc : ¬ ((sep0 :: seprest).isPrefixOf (c :: cs) = true) := by
      simp only [List.isPrefixOf, Bool.and_eq_true, beq_iff_eq]
      rintro ⟨h1, -⟩
      exact h (by simp [h1])
    unfold splitOnce
    rw [if_neg hc, ih (fun hm => h (List.mem_cons_of_mem c hm))]

theorem colon_not_mem_ifntx_row {l : Str} (h : ifntx_is_pixel_row l = true) :
    ':' ∉ l := by
  intro hm
  exact absurd (List.all_eq_true.mp h _ hm) (by decide)

theorem colon_not_mem_tfon_row {l : Str} (h : tfon_is_pixel_row l = true) :
    ':' ∉ l := by
  intro hm
  exact absurd (List.all_eq_true.mp h _ hm) (by decide)

theorem foldl_push_row_dims (f : Str → List Bool) (rows : List Str) :
    ∀ bitmap : Bitmap,
      (rows.foldl (fun bm r => bm.push_row (f r)) bitmap).width = bitmap.width
      ∧ (bitmap.height + rows.length ≤ 255 →
          (rows.foldl (fun bm r => bm.push_row (f r)) bitmap).height
            = bitmap.height + rows.length) := by
  induction rows with
  | nil => intro bitmap; exact ⟨rfl, by simp⟩
  | cons r rs ih =>
    intro bitmap
    refine ⟨(ih _).1, ?_⟩
    intro hbnd
    rw [List.foldl_cons, (ih _).2 ?_]
    · show (bitmap.height + 1) % 256 + rs.length = _
      have hlt : bitmap.height + 1 < 256 := by
        simp only [List.length_cons] at hbnd
        omega
      rw [Nat.mod_eq_of_lt hlt]
      simp
      omega
    · show (bitmap.height + 1) % 256 + rs.length ≤ 255
      have hlt : bitmap.height + 1 < 256 := by
        simp only [List.length_cons] at hbnd
        omega
      rw [Nat.mod_eq_of_lt hlt]
      simp only [List.length_cons] at hbnd
      omega

theorem ifntx_char_loop_run (w : Nat) (mis : Str) (rest : List Str)
    (hmis : ¬ (ifntx_is_pixel_row mis = true ∧ mis.length = w))
    (hmis0 : mis.isEmpty = false) :
    ∀ (more : List Str) (bitmap : Bitmap),
      (∀ r ∈ more, ifntx_is_pixel_row r = true ∧ r.length = w) →
      (∀ r ∈ more, r.isEmpty = false) →
      ifntx_char_loop w bitmap (more ++ mis :: rest)
        = (some (.Bitmap (more.foldl
            (fun bm r => bm.push_row (ifntx_row_pixels r)) bitmap)),
          ⟨rest, some mis⟩) := by
  intro more
  induction more with
  | nil =>
    intro bitmap hmore hne
    show ifntx_char_loop w bitmap (mis :: rest) = _
    unfold ifntx_char_loop
    rw [hmis0]
    simp only [Bool.false_eq_true, if_false]
    rw [if_neg hmis]
    rfl
  | cons r rs ih =>
    intro bitmap hmore hne
    show ifntx_char_loop w bitmap (r :: (rs ++ mis :: rest)) = _
    unfold ifntx_char_loop
    rw [hne r (by simp)]
    simp only [Bool.false_eq_true, if_false]
    rw [if_pos (hmore r (by simp))]
    exact ih _ (fun q hq => hmore q (by simp [hq]))
      (fun q hq => hne q (by simp [hq]))

theorem tfon_char_loop_run (w : Nat) (mis : Str) (rest : List Str)
    (hmis : ¬ (tfon_is_pixel_row mis = true ∧ mis.length = w))
    (hmis0 : mis.isEmpty = false) :
    ∀ (more : List Str) (bitmap : Bitmap),
      (∀ r ∈ more, tfon_is_pixel_row r = true ∧ r.length = w) →
      (∀ r ∈ more, r.isEmpty = false) →
      tfon_char_loop w bitmap (more ++ mis :: rest)
        = (some (.Bitmap (more.foldl
            (fun bm r => bm.push_row (tfon_row_pixels r)) bitmap)),
          ⟨rest, some mis⟩) := by
  intro more
  induction more with
  | nil =>
    intro bitmap hmore hne
    show tfon_char_loop w bitmap (mis :: rest) = _
    unfold tfon_char_loop
    rw [hmis0]
    simp only [Bool.false_eq_true, if_false]
    rw [if_neg hmis]
    rfl
  | cons r rs ih =>
    intro bitmap hmore hne
    show tfon_char_loop w bitmap (r :: (rs ++ mis :: rest)) = _
    unfold tfon_char_loop
    rw [hne r (by simp)]
    simp only [Bool.false_eq_true, if_false]
    rw [if_pos (hmore r (by simp))]
    exact ih _ (fun q hq => hmore q (by simp [hq]))
      (fun q hq => hne q (by simp [hq]))

/-- Claim C9: in the ifntx and tfon parsers, a character block whose rows
have one fixed width `w`, followed by a pixel-row line of a different
width, ends the character's bitmap at the mismatched line and pushes that
line back: the parser returns the bitmap built from the matching rows
only, the mismatched line sits in the pushback slot of the resulting
state, and the very next `next_line` call (the start of the next property
parse) yields exactly that line.  The row count is bounded by the `u8`
height domain (at most 255 rows in total), within which the modelled
`push_row` is exactly the source's. -/
theorem C9_row_width_change_pushback :
    (∀ (w : Nat) (first mis : Str) (more rest : List Str),
      0 < w → w ≤ 255 →
      ifntx_is_pixel_row first = true → first.length = w →
      (∀ r ∈ more, ifntx_is_pixel_row r = true ∧ r.length = w) →
      more.length ≤ 254 →
      ifntx_is_pixel_row mis = true → mis.length ≠ w → mis ≠ [] →
      ∃ bm : Bitmap,
        ifntx_prop ⟨first :: (more ++ mis :: rest), none⟩
            = (some (.Bitmap bm), ⟨rest, some mis⟩)
          ∧ bm.width = w ∧ bm.height = more.length + 1
          ∧ next_line ⟨rest, some mis⟩ = some (mis, ⟨rest, none⟩))
    ∧ (∀ (w : Nat) (first mis : Str) (more rest : List Str),
      0 < w → w ≤ 255 →
      tfon_is_pixel_row first = true → first.length = w →
      (∀ r ∈ more, tfon_is_pixel_row r = true ∧ r.length = w) →
      more.length ≤ 254 →
      tfon_is_pixel_row mis = true → mis.length ≠ w → mis ≠ [] →
      ∃ bm : Bitmap,
        tfon_prop ⟨first :: (more ++ mis :: rest), none⟩
            = .returned (some (.Bitmap bm), ⟨rest, some mis⟩)
          ∧ bm.width = w ∧ bm.height = more.length + 1
          ∧ next_line ⟨rest, some mis⟩ = some (mis, ⟨rest, none⟩)) := by
  constructor
  · intro w first mis more rest hw hw255 hfp hfl hmore hm254 hmp hml hm0
    have hmisne : ¬ (ifntx_is_pixel_row mis = true ∧ mis.length = w) :=
      fun hx => hml hx.2
    have hm0' : mis.isEmpty = false := by
      cases mis with
      | nil => exact absurd rfl hm0
      | cons c cs => rfl
    have hfe : first.isEmpty = false := isEmpty_false_of_length hfl hw
    have hnl : next_line ⟨first :: (more ++ mis :: rest), none⟩
        = some (first, ⟨more ++ mis :: rest, none⟩) := by
      unfold next_line
      simp [List.dropWhile_cons, hfe]
    have hsp : splitOnce ((": ").toList) first = none :=
      splitOnce_none_of_not_mem _ first (colon_not_mem_ifntx_row hfp)
    have hmorene : ∀ r ∈ more, r.isEmpty = false :=
      fun r hr => isEmpty_false_of_length (hmore r hr).2 hw
    refine ⟨(more.foldl (fun bm r => bm.push_row (ifntx_row_pixels r))
        ((Bitmap.new w).push_row (ifntx_row_pixels first))), ?_, ?_, ?_, rfl⟩
    · simp only [ifntx_prop, hnl, hsp]
      unfold ifntx_character
      simp only [hfl]
      rw [if_pos hw255, if_neg (not_or.mpr ⟨by omega, by simp [hfp]⟩)]
      exact ifntx_char_loop_run w mis rest hmisne hm0' more _ hmore hmorene
    · exact (foldl_push_row_dims ifntx_row_pixels more _).1
    · have hb1 : ((Bitmap.new w).push_row (ifntx_row_pixels first)).height
          = 1 := rfl
      rw [(foldl_push_row_dims ifntx_row_pixels more _).2
        (by rw [hb1]; omega), hb1]
      omega
  · intro w first mis more rest hw hw255 hfp hfl hmore hm254 hmp hml hm0
    have hmisne : ¬ (tfon_is_pixel_row mis = true ∧ mis.length = w) :=
      fun hx => hml hx.2
    have hm0' : mis.isEmpty = false := by
      cases mis with
      | nil => exact absurd rfl hm0
      | cons c cs => rfl
    have hfe : first.isEmpty = false := isEmpty_false_of_length hfl hw
    have hnl : next_line ⟨first :: (more ++ mis :: rest), none⟩
        = some (first, ⟨more ++ mis :: rest, none⟩) := by
      unfold next_line
      simp [List.dropWhile_cons, hfe]
    have hsp : splitOnce ((": ").toList) first = none :=
      splitOnce_none_of_not_mem _ first (colon_not_mem_tfon_row hfp)
    have hmorene : ∀ r ∈ more, r.isEmpty = false :=
      fun r hr => isEmpty_false_of_length (hmore r hr).2 hw
    refine ⟨(more.foldl (fun bm r => bm.push_row (tfon_row_pixels r))
        ((Bitmap.new w).push_row (tfon_row_pixels first))), ?_, ?_, ?_, rfl⟩
    · simp only [tfon_prop, hnl, hsp]
      unfold tfon_character
      simp only [hfl]
      rw [if_pos hw255, if_neg (not_or.mpr ⟨by omega, by simp [hfp]⟩)]
      rw [tfon_char_loop_run w mis rest hmisne hm0' more _ hmore hmorene]
    · exact (foldl_push_row_dims tfon_row_pixels more _).1
    · have hb1 : ((Bitmap.new w).push_row (tfon_row_pixels first)).height
          = 1 := rfl
      rw [(foldl_push_row_dims tfon_row_pixels more _).2
        (by rw [hb1]; omega), hb1]
      omega

theorem C9_row_width_change_pushback_witness :
    (∃ bm : Bitmap,
      ifntx_prop ⟨[("XXXXXXXX").toList, ("X.X.X.X.").toList,
          ("X.X.X.").toList, ("name: z").toList], none⟩
          = (some (.Bitmap bm),
              ⟨[("name: z").toList], some (("X.X.X.").toList)⟩)
        ∧ bm.width = 8 ∧ bm.height = [("X.X.X.X.").toList].length + 1
        ∧ next_line ⟨[("name: z").toList], some (("X.X.X.").toList)⟩
            = some ((("X.X.X.").toList), ⟨[("name: z").toList], none⟩))
    ∧ (∃ bm : Bitmap,
      tfon_prop ⟨[("@@@@@@@@").toList, ("@.@.@.@.").toList,
          ("@.@.@.").toList], none⟩
          = .returned (some (.Bitmap bm), ⟨[], some (("@.@.@.").toList)⟩)
        ∧ bm.width = 8 ∧ bm.height = [("@.@.@.@.").toList].length + 1
        ∧ next_line ⟨[], some (("@.@.@.").toList)⟩
            = some ((("@.@.@.").toList), ⟨[], none⟩)) :=
  ⟨C9_row_width_change_pushback.1 8 (("XXXXXXXX").toList)
      (("X.X.X.").toList) [("X.X.X.X.").toList] [("name: z").toList]
      (by decide) (by decide) (by decide) (by decide) (by decide)
      (by decide) (by decide) (by decide) (by decide),
    C9_row_width_change_pushback.2 8 (("@@@@@@@@").toList)
      (("@.@.@.").toList) [("@.@.@.@.").toList] []
      (by decide) (by decide) (by decide) (by decide) (by decide)
      (by decide) (by decide) (by decide) (by decide)⟩

/-- Claim C7: for a bitmap of fixed width `w` built by appending any
sequence of rows (each an arbitrary finite boolean sequence), iterating
all pixels yields exactly `height * w` booleans in row-major order, where
each row contributes its first `w` booleans, right-padded with `false`
when shorter than `w` and with entries beyond `w` ignored.  (The `u8`
bounds on width and row count delimit the domain of the Rust fields.) -/
theorem C7_push_row_pixels_roundtrip (w : Nat) (rows : List (List Bool))
    (hw : w ≤ 255) (hr : rows.length ≤ 255) :
    (rows.foldl Bitmap.push_row (Bitmap.new w)).pixels
        = (rows.map (rowSpec w)).flatten
      ∧ (rows.foldl Bitmap.push_row (Bitmap.new w)).pixels.length
          = (rows.foldl Bitmap.push_row (Bitmap.new w)).height * w
      ∧ (rows.foldl Bitmap.push_row (Bitmap.new w)).height = rows.length := by
  obtain ⟨hwi, hh, hlen, hbits⟩ := foldl_push_row_wf w rows hr
  have hpix : (rows.foldl Bitmap.push_row (Bitmap.new w)).pixels
      = (rows.map (rowSpec w)).flatten := by
    apply List.ext_getElem
    · simp only [Bitmap.pixels, List.length_map, List.length_range, hwi, hh,
        length_flatten_rowSpec]
    · intro i h1 h2
      simp only [Bitmap.pixels, List.getElem_map, List.getElem_range]
      have hi : i < rows.length * w := by
        simpa [Bitmap.pixels, hwi, hh] using h1
      rw [hbits i, decide_eq_true hi, Bool.true_and]
      exact List.getD_eq_getElem _ false h2
  refine ⟨hpix, ?_, hh⟩
  rw [hpix, length_flatten_rowSpec, hh]

theorem C7_push_row_pixels_roundtrip_witness :
    ((2 : Nat) ≤ 255 ∧ [[true], [false, true, true]].length ≤ 255)
    ∧ (([[true], [false, true, true]].foldl Bitmap.push_row
          (Bitmap.new 2)).pixels
        = ([[true], [false, true, true]].map (rowSpec 2)).flatten
      ∧ ([[true], [false, true, true]].foldl Bitmap.push_row
          (Bitmap.new 2)).pixels.length
          = ([[true], [false, true, true]].foldl Bitmap.push_row
              (Bitmap.new 2)).height * 2
      ∧ ([[true], [false, true, true]].foldl Bitmap.push_row
          (Bitmap.new 2)).height = [[true], [false, true, true]].length) :=
  ⟨⟨by decide, by decide⟩,
    C7_push_row_pixels_roundtrip 2 [[true], [false, true, true]]
      (by decide) (by decide)⟩

/-- Claim C8, counterexample: the height field is a `u8`.  Pushing a row
onto a bitmap of height 255 — a valid bitmap per `from_bits` (32 bytes for
255×1 pixels), and reachable by 255 row appends — wraps the height to 0
instead of incrementing it to 256, and the resulting 32-byte buffer no
longer satisfies `length = ceil(width*height/8)` (which is 0 for the
wrapped height): the invariant is not preserved by this row append. -/
theorem C8_counterexample :
    Bitmap.from_bits 255 1 (List.replicate 32 0)
        = some ⟨255, 1, List.replicate 32 0⟩
      ∧ ((⟨255, 1, List.replicate 32 0⟩ : Bitmap).push_row [true]).height = 0
      ∧ ((⟨255, 1, List.replicate 32 0⟩ : Bitmap).push_row [true]).height
          ≠ 255 + 1
      ∧ ((⟨255, 1, List.replicate 32 0⟩ : Bitmap).push_row
          [true]).bmap.length = 32
      ∧ (1 * ((⟨255, 1, List.replicate 32 0⟩ : Bitmap).push_row
          [true]).height + 7) / 8 = 0 := by
  refine ⟨rfl, rfl, by decide, ?_, rfl⟩
  rfl

/-- Claim C8 as amended: a bitmap created with a fixed width satisfies the
packing invariant — the packed buffer length equals `ceil(width*height/8)`
— right after construction, and every row append performed at a height
below 255 preserves it while incrementing the `u8` height by exactly one
(at height 255 the increment wraps and the invariant is not preserved);
within the `u8` height range, bits are packed MSB-first within each byte
and rows are laid out contiguously bit-by-bit in row-major order, with
zero padding only past the final bit of the whole buffer. -/
theorem C8_packed_buffer_invariant (w : Nat) :
    ((Bitmap.new w).bmap.length = (w * (Bitmap.new w).height + 7) / 8
      ∧ (Bitmap.new w).height = 0)
    ∧ (∀ (b : Bitmap) (row : List Bool),
        b.height < 255 →
        b.bmap.length = (b.width * b.height + 7) / 8 →
          (b.push_row row).bmap.length
              = (b.width * (b.push_row row).height + 7) / 8
            ∧ (b.push_row row).height = b.height + 1)
    ∧ (∀ rows : List (List Bool), rows.length ≤ 255 → ∀ i : Nat,
        bitAt (rows.foldl Bitmap.push_row (Bitmap.new w)).bmap i
          = (decide (i < rows.length * w)
              && (rows.map (rowSpec w)).flatten.getD i false)) := by
  refine ⟨⟨by simp [Bitmap.new], rfl⟩, ?_, ?_⟩
  · intro b row hb255 hb
    have hheight : (b.push_row row).height = b.height + 1 := by
      show (b.height + 1) % 256 = b.height + 1
      exact Nat.mod_eq_of_lt (by omega)
    refine ⟨?_, hheight⟩
    show (pushRowAux b.bmap (b.height * b.width) (padRow row b.width)).length
      = _
    rw [length_pushRowAux _ _ _ (by rw [hb, Nat.mul_comm])]
    have hpadlen : (padRow row b.width).length = b.width := by
      rw [padRow_eq_rowSpec]
      exact length_rowSpec _ _
    rw [hpadlen, hheight]
    have harith : b.width * (b.height + 1)
        = b.height * b.width + b.width := by
      ring
    rw [harith]
  · intro rows hrows i
    exact (foldl_push_row_wf w rows hrows).2.2.2 i

theorem C8_packed_buffer_invariant_witness :
    ((Bitmap.new 3).bmap.length = (3 * (Bitmap.new 3).height + 7) / 8
      ∧ (Bitmap.new 3).height = 0)
    ∧ (((⟨1, 3, [160]⟩ : Bitmap).push_row [true]).bmap.length
        = (3 * ((⟨1, 3, [160]⟩ : Bitmap).push_row [true]).height + 7) / 8
      ∧ ((⟨1, 3, [160]⟩ : Bitmap).push_row [true]).height = 1 + 1)
    ∧ (bitAt ([[true, false, true]].foldl Bitmap.push_row
          (Bitmap.new 3)).bmap 2
        = (decide (2 < [[true, false, true]].length * 3)
            && ([[true, false, true]].map (rowSpec 3)).flatten.getD 2
                false)) :=
  ⟨(C8_packed_buffer_invariant 3).1,
    (C8_packed_buffer_invariant 3).2.1 ⟨1, 3, [160]⟩ [true] (by decide)
      (by decide),
    (C8_packed_buffer_invariant 3).2.2 [[true, false, true]] (by decide) 2⟩

theorem C10_from_bits_characterization_witness :
    Bitmap.from_bits 2 3 [7] = some ⟨2, 3, [7]⟩
      ∧ ((Bitmap.from_bits 2 3 [7]).isSome ↔ [7].length = (2 * 3 + 7) / 8)
      ∧ ((⟨2, 3, [7]⟩ : Bitmap).height = 2 ∧ (⟨2, 3, [7]⟩ : Bitmap).width = 3
          ∧ (⟨2, 3, [7]⟩ : Bitmap).into_bits = [7]) :=
  ⟨rfl, (C10_from_bits_characterization 2 3 [7]).1,
    (C10_from_bits_characterization 2 3 [7]).2 ⟨2, 3, [7]⟩ rfl⟩

end Tfon
